import Mathlib

/-!
# Verification of the Microstructure order-book and paper-trading engine

A shallow embedding, over `ℚ`, of the core of the Microstructure repository:

* `src/orderbook/metrics.py` — the pure metric functions;
* `src/orderbook/engine.py` — the sortedcontainers-based `OrderBook` replica
  (`apply_diff`, OFI pipeline);
* `src/realtime_server.py` — the minimal dict-based `OrderBook` with the
  crossed-book integrity check;
* `src/paper_trading.py` — the `PaperTradingEngine` (order store, market-order
  walk, limit advancement from the trade tape, fees, portfolio accounting).

Python `float` values are modelled as rationals, exchange update ids as
integers, and order ids (uuid strings in the source) as naturals.  Raised
exceptions are modelled by returning the state at the moment of the raise
together with an error code.
-/

namespace Microstructure

/-! ## Pure metric functions (`src/orderbook/metrics.py`) -/

/-- Function `calculate_imbalance`: volume imbalance over the top `depth` levels. -/
def calculate_imbalance (bids asks : List (ℚ × ℚ)) (depth : Nat) : ℚ :=
  let bid_vol := ((bids.take depth).map Prod.snd).sum
  let ask_vol := ((asks.take depth).map Prod.snd).sum
  let total_vol := bid_vol + ask_vol
  if total_vol = 0 then 0 else (bid_vol - ask_vol) / total_vol

/-- Function `calculate_spread`; `none` models Python `None` for an empty side. -/
def calculate_spread (best_bid best_ask : Option ℚ) : ℚ :=
  match best_bid, best_ask with
  | some bb, some ba => ba - bb
  | _, _ => 0

/-- Function `calculate_midprice`. -/
def calculate_midprice (best_bid best_ask : Option ℚ) : ℚ :=
  match best_bid, best_ask with
  | some bb, some ba => (bb + ba) / 2
  | _, _ => 0

/-- Function `calculate_microprice`: opposite-side volume weighted mid, falling back to
the mid when both top quantities are zero. -/
def calculate_microprice (best_bid best_ask : Option ℚ)
    (best_bid_qty best_ask_qty : ℚ) : ℚ :=
  match best_bid, best_ask with
  | some bb, some ba =>
    let total_qty := best_bid_qty + best_ask_qty
    if total_qty = 0 then (bb + ba) / 2
    else (bb * best_ask_qty + ba * best_bid_qty) / total_qty
  | _, _ => 0

/-- Function `calculate_ofi_step`: per-step order-flow-imbalance contribution. -/
def calculate_ofi_step (current_bid current_bid_qty prev_bid prev_bid_qty
    current_ask current_ask_qty prev_ask prev_ask_qty : ℚ) : ℚ :=
  let e_bid :=
    if prev_bid < current_bid then current_bid_qty
    else if current_bid < prev_bid then -prev_bid_qty
    else current_bid_qty - prev_bid_qty
  let e_ask :=
    if current_ask < prev_ask then current_ask_qty
    else if prev_ask < current_ask then -prev_ask_qty
    else current_ask_qty - prev_ask_qty
  e_bid - e_ask

/-! ## Depth events and error codes -/

/-- A Binance depth diff event: first/last update id and bid/ask deltas. -/
structure DepthEvent where
  U : Int
  u : Int
  b : List (ℚ × ℚ)
  a : List (ℚ × ℚ)
deriving DecidableEq

/-- The exceptions an `apply_diff` can raise. -/
inductive BookError where
  | idGap
  | bridgingFailed
  | crossedBook
deriving DecidableEq

/-! ## Sorted price-level maps

`sortedcontainers.SortedDict` keyed by `ℚ`, embedded as an association list
sorted by key in ascending order without duplicate keys.  Bids are stored
under key `-price` (so ascending key order is descending price order), asks
under key `price`, exactly as in `src/orderbook/engine.py`. -/

/-- Assignment `d[k] = v` on a sorted association list: insert or replace. -/
def sdSet (k v : ℚ) : List (ℚ × ℚ) → List (ℚ × ℚ)
  | [] => [(k, v)]
  | (k', v') :: rest =>
    if k < k' then (k, v) :: (k', v') :: rest
    else if k = k' then (k, v) :: rest
    else (k', v') :: sdSet k v rest

/-- Deletion `if k in d: del d[k]` on a sorted association list. -/
def sdErase (k : ℚ) : List (ℚ × ℚ) → List (ℚ × ℚ)
  | [] => []
  | (k', v') :: rest => if k = k' then rest else (k', v') :: sdErase k rest

namespace Engine

/-- State of the `OrderBook` of `src/orderbook/engine.py`.

`last_update_id` is `None` until the first snapshot; `apply_diff` is only
reachable afterwards (Python would raise `TypeError` on `None`), so the field
is embedded as `Int`.  `prev_best_bid_qty`/`prev_best_ask_qty` are likewise
`None` only before they are first written, and are only read under a guard
that forces them to have been written; they are embedded as `ℚ`. -/
structure OrderBookE where
  bids : List (ℚ × ℚ)  -- key = -price, sorted ascending
  asks : List (ℚ × ℚ)  -- key = price, sorted ascending
  last_update_id : Int
  prev_best_bid : Option ℚ
  prev_best_bid_qty : ℚ
  prev_best_ask : Option ℚ
  prev_best_ask_qty : ℚ
  ofi_window : List ℚ
  cvd : ℚ
deriving DecidableEq

/-- Append on `deque(maxlen=50)`: push right, evict oldest on overflow. -/
def dequePush (w : List ℚ) (x : ℚ) : List ℚ :=
  let w' := w ++ [x]
  if 50 < w'.length then w'.tail else w'

/-- Method `OrderBook.get_best_bid`. -/
def get_best_bid (st : OrderBookE) : Option ℚ :=
  st.bids.head?.map (fun it => -it.1)

/-- Method `OrderBook.get_best_ask`. -/
def get_best_ask (st : OrderBookE) : Option ℚ :=
  st.asks.head?.map Prod.fst

/-- Method `OrderBook._calculate_and_store_ofi`. -/
def calcAndStoreOfi (st : OrderBookE) : OrderBookE :=
  let bestBidItem := st.bids.head?
  let bestAskItem := st.asks.head?
  let curr_bid := match bestBidItem with | some it => -it.1 | none => 0
  let curr_bid_qty := match bestBidItem with | some it => it.2 | none => 0
  let curr_ask := match bestAskItem with | some it => it.1 | none => 0
  let curr_ask_qty := match bestAskItem with | some it => it.2 | none => 0
  let window :=
    match st.prev_best_bid, st.prev_best_ask with
    | some pb, some pa =>
      if 0 < curr_bid ∧ 0 < curr_ask then
        dequePush st.ofi_window
          (calculate_ofi_step curr_bid curr_bid_qty pb st.prev_best_bid_qty
            curr_ask curr_ask_qty pa st.prev_best_ask_qty)
      else st.ofi_window
    | _, _ => st.ofi_window
  { st with
      ofi_window := window
      prev_best_bid := some curr_bid
      prev_best_bid_qty := curr_bid_qty
      prev_best_ask := some curr_ask
      prev_best_ask_qty := curr_ask_qty }

/-- Bid deltas: qty 0 deletes the level at key `-price`, else replaces it. -/
def applyBidDeltas (bids : List (ℚ × ℚ)) (deltas : List (ℚ × ℚ)) :
    List (ℚ × ℚ) :=
  deltas.foldl
    (fun m pq => if pq.2 = 0 then sdErase (-pq.1) m else sdSet (-pq.1) pq.2 m)
    bids

/-- Ask deltas: qty 0 deletes the level at key `price`, else replaces it. -/
def applyAskDeltas (asks : List (ℚ × ℚ)) (deltas : List (ℚ × ℚ)) :
    List (ℚ × ℚ) :=
  deltas.foldl
    (fun m pq => if pq.2 = 0 then sdErase pq.1 m else sdSet pq.1 pq.2 m)
    asks

/-- The mutation part of `apply_diff` once the gates have passed. -/
def applyAndFinish (st : OrderBookE) (ev : DepthEvent) : OrderBookE :=
  calcAndStoreOfi
    { st with
        bids := applyBidDeltas st.bids ev.b
        asks := applyAskDeltas st.asks ev.a
        last_update_id := ev.u }

/-- Method `OrderBook.apply_diff` of `src/orderbook/engine.py`.

Returns the state as it is after the call together with the raised exception,
if any.  Both gates precede every mutation in the source, so on an exception
the returned state is the input state. -/
def apply_diff (st : OrderBookE) (ev : DepthEvent) (strict : Bool) :
    OrderBookE × Option BookError :=
  if ev.u ≤ st.last_update_id then (st, none)
  else if strict then
    if ev.U ≠ st.last_update_id + 1 then (st, some .idGap)
    else (applyAndFinish st ev, none)
  else
    if ¬ (ev.U ≤ st.last_update_id + 1 ∧ st.last_update_id + 1 ≤ ev.u) then
      (st, some .bridgingFailed)
    else (applyAndFinish st ev, none)

end Engine

namespace Realtime

/-! The minimal `OrderBook` of `src/realtime_server.py`: plain dicts keyed by
price, `best_bid = max(keys)`, `best_ask = min(keys)`, and the crossed-book
integrity check after each applied diff.  A dict is embedded as an
association list with unique keys (insertion order is immaterial: only
lookup, max and min of the key set are ever used). -/

/-- Assignment `d[k] = v` on a dict. -/
def dSet (k v : ℚ) (l : List (ℚ × ℚ)) : List (ℚ × ℚ) :=
  if l.any (fun p => p.1 = k) then l.map (fun p => if p.1 = k then (k, v) else p)
  else l ++ [(k, v)]

/-- Removal `d.pop(k, None)` on a dict. -/
def dPop (k : ℚ) (l : List (ℚ × ℚ)) : List (ℚ × ℚ) :=
  l.filter (fun p => p.1 ≠ k)

/-- Maximum `max(d.keys())` as an `Option`. -/
def maxKey : List (ℚ × ℚ) → Option ℚ
  | [] => none
  | (k, _) :: rest =>
    match maxKey rest with
    | none => some k
    | some m => some (max k m)

/-- Minimum `min(d.keys())` as an `Option`. -/
def minKey : List (ℚ × ℚ) → Option ℚ
  | [] => none
  | (k, _) :: rest =>
    match minKey rest with
    | none => some k
    | some m => some (min k m)

/-- Python truthiness of an optional float: `None` and `0.0` are falsy. -/
def truthy : Option ℚ → Bool
  | none => false
  | some q => q ≠ 0

/-- State of the minimal `OrderBook` of `src/realtime_server.py`. -/
structure OrderBookR where
  bids : List (ℚ × ℚ)
  asks : List (ℚ × ℚ)
  last_update_id : Int
deriving DecidableEq

/-- Method `OrderBook.best_bid`. -/
def best_bid (st : OrderBookR) : Option ℚ := maxKey st.bids

/-- Method `OrderBook.best_ask`. -/
def best_ask (st : OrderBookR) : Option ℚ := minKey st.asks

/-- Method `OrderBook.apply_diff` of `src/realtime_server.py`, including the
crossed-book integrity check guarded by Python truthiness of both best
prices.  On `CROSSED BOOK` the deltas have already been applied and
`last_update_id` already advanced, which the returned state reflects. -/
def apply_diff (st : OrderBookR) (ev : DepthEvent) (strict : Bool) :
    OrderBookR × Option BookError :=
  if ev.u ≤ st.last_update_id then (st, none)
  else if strict ∧ ev.U ≠ st.last_update_id + 1 then (st, some .idGap)
  else if ¬ strict ∧ ¬ (ev.U ≤ st.last_update_id + 1 ∧ st.last_update_id + 1 ≤ ev.u) then
    (st, some .bridgingFailed)
  else
    let bids' := ev.b.foldl
      (fun m pq => if pq.2 = 0 then dPop pq.1 m else dSet pq.1 pq.2 m) st.bids
    let asks' := ev.a.foldl
      (fun m pq => if pq.2 = 0 then dPop pq.1 m else dSet pq.1 pq.2 m) st.asks
    let st' : OrderBookR := { bids := bids', asks := asks', last_update_id := ev.u }
    if truthy (best_bid st') ∧ truthy (best_ask st') ∧
        (best_ask st').getD 0 ≤ (best_bid st').getD 0 then
      (st', some .crossedBook)
    else (st', none)

end Realtime

/-! ## Paper trading (`src/paper_trading.py`) -/

namespace Paper

inductive OrderSide where
  | BUY
  | SELL
deriving DecidableEq

inductive OrderType where
  | MARKET
  | LIMIT
deriving DecidableEq

inductive OrderStatus where
  | PENDING
  | OPEN
  | FILLED
  | CANCELLED
deriving DecidableEq

/-- Fields of the `Order` dataclass.  Order ids (uuid strings) and symbols are embedded
as naturals; `created_at` is a timestamp. -/
structure Order where
  id : Nat
  symbol : Nat
  side : OrderSide
  order_type : OrderType
  quantity : ℚ
  price : ℚ
  created_at : ℚ
  status : OrderStatus := .PENDING
  filled_quantity : ℚ := 0
  average_price : ℚ := 0
  initial_queue_position : ℚ := 0
  processed_volume : ℚ := 0
deriving DecidableEq

/-- A trade-tape event: price `p`, quantity `q`, buyer-is-maker flag `m`. -/
structure Trade where
  p : ℚ
  q : ℚ
  m : Bool
deriving DecidableEq

/-- The mutable fields of `PaperTradingEngine`.  The order catalog
(`self.orders`, a dict) is an association list with unique keys; the
open-order index (`self.open_orders`) is a list of ids. -/
structure PaperState where
  balance_usd : ℚ
  balance_btc : ℚ
  maker_fee : ℚ
  taker_fee : ℚ
  orders : List (Nat × Order)
  open_orders : List Nat
  min_latency : ℚ
  max_latency : ℚ
  realized_pnl : ℚ
  total_volume_traded : ℚ
  fees_enabled : Bool
deriving DecidableEq

/-- Constructor `PaperTradingEngine.__init__`. -/
def PaperState.init (initial_balance_usd maker_fee taker_fee : ℚ) : PaperState :=
  { balance_usd := initial_balance_usd
    balance_btc := 0
    maker_fee := maker_fee
    taker_fee := taker_fee
    orders := []
    open_orders := []
    min_latency := 50
    max_latency := 200
    realized_pnl := 0
    total_volume_traded := 0
    fees_enabled := true }

/-- Method `PaperTradingEngine.reset`: note the source resets `balance_usd`
to the literal `100000.0`, not to the balance the engine was constructed
with. -/
def reset (st : PaperState) : PaperState :=
  { st with
      balance_usd := 100000
      balance_btc := 0
      orders := []
      open_orders := []
      realized_pnl := 0
      total_volume_traded := 0 }

/-- Method `PaperTradingEngine.set_fees`. -/
def set_fees (st : PaperState) (enabled : Bool) : PaperState :=
  { st with fees_enabled := enabled }

/-- Lookup `self.orders.get(oid)` / `self.orders[oid]`. -/
def lookupOrder : List (Nat × Order) → Nat → Option Order
  | [], _ => none
  | (k, o) :: rest, i => if k = i then some o else lookupOrder rest i

/-- Writing back a mutation of the shared `Order` object: every entry under
the id is replaced. -/
def updateOrder : List (Nat × Order) → Nat → Order → List (Nat × Order)
  | [], _, _ => []
  | (k, w) :: rest, i, o =>
    if k = i then (i, o) :: updateOrder rest i o
    else (k, w) :: updateOrder rest i o

/-- Method `PaperTradingEngine.place_order` after the latency sleep has completed:
the order is catalogued with status PENDING, then a LIMIT order is marked
OPEN and appended to the open-order index while a MARKET order stays
PENDING. -/
def place_order (st : PaperState) (oid symbol : Nat) (side : OrderSide)
    (otype : OrderType) (quantity price created_at : ℚ) : PaperState :=
  let o : Order :=
    { id := oid, symbol := symbol, side := side, order_type := otype
      quantity := quantity, price := price, created_at := created_at }
  match otype with
  | .LIMIT =>
    { st with
        orders := st.orders ++ [(oid, { o with status := .OPEN })]
        open_orders := st.open_orders ++ [oid] }
  | .MARKET => { st with orders := st.orders ++ [(oid, o)] }

/-- Method `PaperTradingEngine._finalize_fill`.  The source receives the shared
`Order` object; callers obtain it from `self.orders`, so the embedding takes
the id and writes the mutated order back. -/
def finalize_fill (st : PaperState) (oid : Nat) (qty price : ℚ)
    (is_maker : Bool) : PaperState :=
  match lookupOrder st.orders oid with
  | none => st
  | some o =>
    let fee_rate := if is_maker then st.maker_fee else st.taker_fee
    let cost := qty * price
    let fee := if st.fees_enabled then cost * fee_rate else 0
    let o' := { o with filled_quantity := qty, average_price := price, status := .FILLED }
    { st with
        balance_usd :=
          if o.side = .BUY then st.balance_usd - cost - fee
          else st.balance_usd + cost - fee
        balance_btc :=
          if o.side = .BUY then st.balance_btc + qty else st.balance_btc - qty
        orders := updateOrder st.orders oid o'
        total_volume_traded := st.total_volume_traded + cost }

/-- The walk-the-book loop of `process_market_order`: over the liquidity
items `(raw_price, vol)` with `price = abs(raw_price)` (bids are stored under
negated keys), returns `(total_cost, remaining_qty)`. -/
def marketWalk : List (ℚ × ℚ) → ℚ → ℚ → ℚ × ℚ
  | [], remaining, total_cost => (total_cost, remaining)
  | (raw_price, vol) :: rest, remaining, total_cost =>
    if remaining ≤ 0 then (total_cost, remaining)
    else
      let fill_qty := min remaining vol
      marketWalk rest (remaining - fill_qty) (total_cost + fill_qty * |raw_price|)

/-- Modelled from the spec: the market-order walk as the spec words it —
iterate the opposite-side levels `(price, level_qty)` in best-to-worst order,
take `fill = min(remaining, level_qty)` at each level, accumulate cost
`fill · price`, stop when remaining hits 0 or levels exhaust.  Returns
`(cost, remaining)`. -/
def walkSpec : List (ℚ × ℚ) → ℚ → ℚ → ℚ × ℚ
  | [], remaining, cost => (cost, remaining)
  | (price, level_qty) :: rest, remaining, cost =>
    if remaining ≤ 0 then (cost, remaining)
    else
      walkSpec rest (remaining - min remaining level_qty)
        (cost + min remaining level_qty * price)

/-- Method `PaperTradingEngine.process_market_order`: BUY walks the asks (ascending
key = ascending price), SELL walks the bids (ascending key `-price` =
descending price). -/
def process_market_order (st : PaperState) (oid : Nat)
    (book : Engine.OrderBookE) : PaperState :=
  match lookupOrder st.orders oid with
  | none => st
  | some o =>
    if o.status = .FILLED then st
    else
      let liquidity := if o.side = .BUY then book.asks else book.bids
      let walked := marketWalk liquidity o.quantity 0
      let filled_qty := o.quantity - walked.2
      let avg_price := if 0 < filled_qty then walked.1 / filled_qty else 0
      finalize_fill st oid filled_qty avg_price false

/-- The body of the inner loop of `process_limit_orders` for one open order
id.  `list.remove` in the source raises if the id is absent; in reachable
states it is present and `List.erase` is its total counterpart.  The SELL
volume branch guards removal by membership in the source, which is kept. -/
def limitStep (trade : Trade) (st : PaperState) (oid : Nat) : PaperState :=
  match lookupOrder st.orders oid with
  | none => st
  | some o =>
    match o.side with
    | .BUY =>
      if trade.p < o.price then
        let st' := finalize_fill st oid o.quantity o.price true
        { st' with open_orders := st'.open_orders.erase oid }
      else if trade.p = o.price then
        if trade.m then
          let o' := { o with processed_volume := o.processed_volume + trade.q }
          let st' := { st with orders := updateOrder st.orders oid o' }
          if o'.quantity < o'.processed_volume then
            let st'' := finalize_fill st' oid o'.quantity o'.price true
            { st'' with open_orders := st''.open_orders.erase oid }
          else st'
        else st
      else st
    | .SELL =>
      if o.price < trade.p then
        let st' := finalize_fill st oid o.quantity o.price true
        { st' with open_orders := st'.open_orders.erase oid }
      else if trade.p = o.price then
        if !trade.m then
          let o' := { o with processed_volume := o.processed_volume + trade.q }
          let st' := { st with orders := updateOrder st.orders oid o' }
          if o'.quantity < o'.processed_volume then
            let st'' := finalize_fill st' oid o'.quantity o'.price true
            { st'' with
                open_orders :=
                  if oid ∈ st''.open_orders then st''.open_orders.erase oid
                  else st''.open_orders }
          else st'
        else st
      else st

/-- One trade of `process_limit_orders`: the inner loop iterates over a
snapshot (`list(self.open_orders)`) of the index taken before the loop. -/
def processTradeStep (st : PaperState) (trade : Trade) : PaperState :=
  st.open_orders.foldl (limitStep trade) st

/-- Method `PaperTradingEngine.process_limit_orders`. -/
def process_limit_orders (st : PaperState) (trade_stream : List Trade) :
    PaperState :=
  trade_stream.foldl processTradeStep st

/-- Method `PaperTradingEngine.cancel_order`. -/
def cancel_order (st : PaperState) (oid : Nat) : PaperState × Bool :=
  if oid ∈ st.open_orders then
    let orders' :=
      match lookupOrder st.orders oid with
      | some o => updateOrder st.orders oid { o with status := .CANCELLED }
      | none => st.orders
    ({ st with open_orders := st.open_orders.erase oid, orders := orders' }, true)
  else (st, false)

/-- Setting one open order's status to CANCELLED (loop body of
`cancel_all_orders`). -/
def cancelOne (orders : List (Nat × Order)) (oid : Nat) : List (Nat × Order) :=
  match lookupOrder orders oid with
  | some o => updateOrder orders oid { o with status := .CANCELLED }
  | none => orders

/-- Method `PaperTradingEngine.cancel_all_orders`. -/
def cancel_all_orders (st : PaperState) : PaperState × Nat :=
  let count := st.open_orders.length
  ({ st with
      orders := st.open_orders.foldl cancelOne st.orders
      open_orders := [] }, count)

/-- The dict returned by `get_portfolio_snapshot`. -/
structure PortfolioSnapshot where
  usd : ℚ
  btc : ℚ
  equity : ℚ
  fees_enabled : Bool
  open_orders : Nat
deriving DecidableEq

/-- Method `PaperTradingEngine.get_portfolio_snapshot`. -/
def get_portfolio_snapshot (st : PaperState) (current_price : ℚ) :
    PortfolioSnapshot :=
  { usd := st.balance_usd
    btc := st.balance_btc
    equity :=
      st.balance_usd +
        (if 0 < current_price then st.balance_btc * current_price else 0)
    fees_enabled := st.fees_enabled
    open_orders := st.open_orders.length }

/-- States reachable from a fresh engine by any sequence of the public
operations.  Order ids are generated by `uuid4` in the source, hence fresh;
`place` records that. -/
inductive ReachableAny : PaperState → Prop where
  | init (bal mf tf : ℚ) : ReachableAny (PaperState.init bal mf tf)
  | place {st} (h : ReachableAny st) (oid symbol : Nat) (side : OrderSide)
      (otype : OrderType) (q p t : ℚ)
      (hfresh : lookupOrder st.orders oid = none) :
      ReachableAny (place_order st oid symbol side otype q p t)
  | market {st} (h : ReachableAny st) (oid : Nat) (book : Engine.OrderBookE) :
      ReachableAny (process_market_order st oid book)
  | limits {st} (h : ReachableAny st) (trades : List Trade) :
      ReachableAny (process_limit_orders st trades)
  | cancel {st} (h : ReachableAny st) (oid : Nat) :
      ReachableAny (cancel_order st oid).1
  | cancelAll {st} (h : ReachableAny st) :
      ReachableAny (cancel_all_orders st).1
  | doReset {st} (h : ReachableAny st) : ReachableAny (reset st)

/-- Reachability as in `ReachableAny`, but with `process_market_order`
invoked only on ids of MARKET-type orders (its intended callers). -/
inductive Reachable : PaperState → Prop where
  | init (bal mf tf : ℚ) : Reachable (PaperState.init bal mf tf)
  | place {st} (h : Reachable st) (oid symbol : Nat) (side : OrderSide)
      (otype : OrderType) (q p t : ℚ)
      (hfresh : lookupOrder st.orders oid = none) :
      Reachable (place_order st oid symbol side otype q p t)
  | market {st} (h : Reachable st) (oid : Nat) (book : Engine.OrderBookE)
      (htype : ∀ o, lookupOrder st.orders oid = some o →
        o.order_type = .MARKET) :
      Reachable (process_market_order st oid book)
  | limits {st} (h : Reachable st) (trades : List Trade) :
      Reachable (process_limit_orders st trades)
  | cancel {st} (h : Reachable st) (oid : Nat) :
      Reachable (cancel_order st oid).1
  | cancelAll {st} (h : Reachable st) :
      Reachable (cancel_all_orders st).1
  | doReset {st} (h : Reachable st) : Reachable (reset st)

/-- The open-order index invariant: the index has no duplicates, an id is in
it exactly when its order is OPEN, and MARKET-type orders are never OPEN. -/
def OpenIndexInv (st : PaperState) : Prop :=
  st.open_orders.Nodup ∧
  (∀ oid, oid ∈ st.open_orders ↔
    ∃ o, lookupOrder st.orders oid = some o ∧ o.status = .OPEN) ∧
  (∀ oid o, lookupOrder st.orders oid = some o → o.order_type = .MARKET →
    o.status ≠ .OPEN)

end Paper

/-! ## Helper lemmas -/

theorem sum_map_snd_take_nonneg (l : List (ℚ × ℚ)) (d : Nat)
    (h : ∀ x ∈ l.map Prod.snd, 0 ≤ x) : 0 ≤ ((l.take d).map Prod.snd).sum :=
  List.sum_nonneg fun x hx =>
    h x (List.map_subset Prod.snd (List.take_subset d l) hx)

theorem lookup_updateOrder_self {l : List (Nat × Paper.Order)} {i : Nat}
    {o₀ : Paper.Order} (o : Paper.Order)
    (h : Paper.lookupOrder l i = some o₀) :
    Paper.lookupOrder (Paper.updateOrder l i o) i = some o := by
  induction l with
  | nil => simp [Paper.lookupOrder] at h
  | cons hd tl ih =>
    obtain ⟨k, w⟩ := hd
    by_cases hk : k = i
    · simp [Paper.updateOrder, Paper.lookupOrder, hk]
    · simp only [Paper.lookupOrder, if_neg hk] at h
      simp only [Paper.updateOrder, if_neg hk, Paper.lookupOrder]
      exact ih h

theorem lookup_updateOrder_ne {l : List (Nat × Paper.Order)} {i j : Nat}
    (o : Paper.Order) (h : j ≠ i) :
    Paper.lookupOrder (Paper.updateOrder l i o) j = Paper.lookupOrder l j := by
  induction l with
  | nil => rfl
  | cons hd tl ih =>
    obtain ⟨k, w⟩ := hd
    by_cases hk : k = i
    · subst hk
      simp only [Paper.updateOrder, if_pos rfl, Paper.lookupOrder]
      rw [if_neg (fun hkj : k = j => h hkj.symm),
        if_neg (fun hkj : k = j => h hkj.symm)]
      exact ih
    · simp only [Paper.updateOrder, if_neg hk, Paper.lookupOrder]
      by_cases hj : k = j <;> simp [hj, ih]

theorem lookup_append_singleton {l : List (Nat × Paper.Order)} {i j : Nat}
    (o : Paper.Order) :
    Paper.lookupOrder (l ++ [(i, o)]) j =
      ((Paper.lookupOrder l j).orElse
        (fun _ => if i = j then some o else none)) := by
  induction l with
  | nil => simp [Paper.lookupOrder]
  | cons hd tl ih =>
    obtain ⟨k, w⟩ := hd
    by_cases hk : k = j <;> simp [Paper.lookupOrder, hk, ih]

/-- The market walk with `price = abs(raw_price)` agrees with the spec's walk
when the raw keys already are the prices (non-negative keys: the ask side). -/
theorem marketWalk_eq_walkSpec_nonneg (levels : List (ℚ × ℚ)) :
    ∀ Q C, (∀ pq ∈ levels, 0 ≤ pq.1) →
      Paper.marketWalk levels Q C = Paper.walkSpec levels Q C := by
  induction levels with
  | nil => intro Q C _; rfl
  | cons hd tl ih =>
    intro Q C h
    obtain ⟨p, v⟩ := hd
    simp only [Paper.marketWalk, Paper.walkSpec]
    by_cases hr : Q ≤ 0
    · simp [hr]
    · rw [if_neg hr, if_neg hr,
        abs_of_nonneg (h (p, v) (List.mem_cons_self _ _))]
      exact ih _ _ fun pq hpq => h pq (List.mem_cons_of_mem _ hpq)

/-- The market walk over bid levels (keys `-price`, non-positive) agrees with
the spec's walk over the actual `(price, qty)` levels, which the key order
lists in descending price order. -/
theorem marketWalk_eq_walkSpec_nonpos (levels : List (ℚ × ℚ)) :
    ∀ Q C, (∀ pq ∈ levels, pq.1 ≤ 0) →
      Paper.marketWalk levels Q C =
        Paper.walkSpec (levels.map (fun pq => (-pq.1, pq.2))) Q C := by
  induction levels with
  | nil => intro Q C _; rfl
  | cons hd tl ih =>
    intro Q C h
    obtain ⟨p, v⟩ := hd
    simp only [Paper.marketWalk, Paper.walkSpec, List.map_cons]
    by_cases hr : Q ≤ 0
    · simp [hr]
    · rw [if_neg hr, if_neg hr,
        abs_of_nonpos (h (p, v) (List.mem_cons_self _ _))]
      exact ih _ _ fun pq hpq => h pq (List.mem_cons_of_mem _ hpq)

/-- When the total level volume falls short of the requested quantity, the
walk consumes every level: it returns the full notional and the shortfall. -/
theorem marketWalk_exhausts (levels : List (ℚ × ℚ)) :
    ∀ Q C, (∀ pq ∈ levels, 0 ≤ pq.2) → (levels.map Prod.snd).sum < Q →
      Paper.marketWalk levels Q C =
        (C + (levels.map (fun pq => pq.2 * |pq.1|)).sum,
          Q - (levels.map Prod.snd).sum) := by
  induction levels with
  | nil =>
    intro Q C _ _
    simp [Paper.marketWalk]
  | cons hd tl ih =>
    intro Q C h hlt
    obtain ⟨p, v⟩ := hd
    have hv : 0 ≤ v := h (p, v) (List.mem_cons_self _ _)
    have htl : ∀ pq ∈ tl, 0 ≤ pq.2 := fun pq hpq => h pq (List.mem_cons_of_mem _ hpq)
    have hsum : 0 ≤ (tl.map Prod.snd).sum :=
      List.sum_nonneg fun x hx => by
        obtain ⟨pq, hpq, hx'⟩ := List.mem_map.mp hx
        exact hx' ▸ htl pq hpq
    simp only [List.map_cons, List.sum_cons] at hlt ⊢
    have hQ : 0 < Q := lt_of_le_of_lt (by linarith) hlt
    have hvQ : v ≤ Q := by linarith
    simp only [Paper.marketWalk]
    rw [if_neg (not_le.mpr hQ), min_eq_right hvQ,
      ih (Q - v) (C + v * |p|) htl (by linarith)]
    simp only [Prod.mk.injEq]
    constructor <;> ring

/-- Evaluating `process_market_order` on a catalogued, not-yet-filled order reduces to
finalizing the walked fill. -/
theorem process_market_order_eq {st : Paper.PaperState} {oid : Nat}
    {o : Paper.Order} (book : Engine.OrderBookE)
    (hlk : Paper.lookupOrder st.orders oid = some o)
    (hnf : ¬ o.status = .FILLED) :
    Paper.process_market_order st oid book =
      Paper.finalize_fill st oid
        (o.quantity -
          (Paper.marketWalk (if o.side = .BUY then book.asks else book.bids)
            o.quantity 0).2)
        (if 0 < o.quantity -
            (Paper.marketWalk (if o.side = .BUY then book.asks else book.bids)
              o.quantity 0).2 then
          (Paper.marketWalk (if o.side = .BUY then book.asks else book.bids)
            o.quantity 0).1 /
            (o.quantity -
              (Paper.marketWalk (if o.side = .BUY then book.asks else book.bids)
                o.quantity 0).2)
         else 0) false := by
  simp only [Paper.process_market_order, hlk, if_neg hnf]

/-- After `finalize_fill` the catalogued order carries the fill quantity, the
fill price and status FILLED. -/
theorem finalize_fill_lookup {st : Paper.PaperState} {oid : Nat}
    {o : Paper.Order} (qty price : ℚ) (is_maker : Bool)
    (hlk : Paper.lookupOrder st.orders oid = some o) :
    Paper.lookupOrder (Paper.finalize_fill st oid qty price is_maker).orders oid
      = some { o with
          filled_quantity := qty
          average_price := price
          status := .FILLED } := by
  simp only [Paper.finalize_fill, hlk]
  exact lookup_updateOrder_self _ hlk

/-- A fill of zero quantity at price zero leaves both balances unchanged. -/
theorem finalize_fill_zero {st : Paper.PaperState} {oid : Nat}
    {o : Paper.Order} (is_maker : Bool)
    (hlk : Paper.lookupOrder st.orders oid = some o) :
    (Paper.finalize_fill st oid 0 0 is_maker).balance_usd = st.balance_usd ∧
    (Paper.finalize_fill st oid 0 0 is_maker).balance_btc = st.balance_btc := by
  simp only [Paper.finalize_fill, hlk]
  rcases o.side <;> simp

/-! ## Claims -/

/-- C8: the per-step OFI contribution is `e_bid - e_ask` with `e_bid` equal
to `+q_bid_now` when the bid lifts, `-q_bid_prev` when it drops and the
quantity change when it stays, `e_ask` symmetric with the ask inequalities
reversed; and for prev `(bb=100,q=5)`, `(ba=101,q=5)` and new
`(bb=100.5,q=3)`, `(ba=101,q=5)` the contribution is `+3`. -/
theorem C8_ofi_step :
    (∀ bb_now qb_now bb_prev qb_prev ba_now qa_now ba_prev qa_prev : ℚ,
      calculate_ofi_step bb_now qb_now bb_prev qb_prev
          ba_now qa_now ba_prev qa_prev =
        (if bb_prev < bb_now then qb_now
         else if bb_now < bb_prev then -qb_prev
         else qb_now - qb_prev) -
        (if ba_now < ba_prev then qa_now
         else if ba_prev < ba_now then -qa_prev
         else qa_now - qa_prev)) ∧
    calculate_ofi_step (100.5) 3 100 5 101 5 101 5 = 3 := by
  constructor
  · intro bb_now qb_now bb_prev qb_prev ba_now qa_now ba_prev qa_prev
    rfl
  · norm_num [calculate_ofi_step]

/-- C9: the imbalance is `(vb - va)/(vb + va)` over the top `depth` levels
with 0 on an empty total and lies in `[-1, 1]` for non-negative quantities;
the microprice is the opposite-side weighted average with the mid fallback;
and for `bb ≤ ba` and non-negative top quantities the spread is non-negative
and both mid and microprice lie between `min bb ba` and `max bb ba`. -/
theorem C9_metric_bounds :
    (∀ (bids asks : List (ℚ × ℚ)) (depth : Nat),
      (calculate_imbalance bids asks depth =
        (if ((bids.take depth).map Prod.snd).sum +
            ((asks.take depth).map Prod.snd).sum = 0 then 0
         else (((bids.take depth).map Prod.snd).sum -
            ((asks.take depth).map Prod.snd).sum) /
           (((bids.take depth).map Prod.snd).sum +
            ((asks.take depth).map Prod.snd).sum))) ∧
      ((∀ x ∈ bids.map Prod.snd, 0 ≤ x) → (∀ x ∈ asks.map Prod.snd, 0 ≤ x) →
        -1 ≤ calculate_imbalance bids asks depth ∧
          calculate_imbalance bids asks depth ≤ 1)) ∧
    (∀ bb ba qb qa : ℚ,
      calculate_microprice (some bb) (some ba) qb qa =
        (if qb + qa = 0 then calculate_midprice (some bb) (some ba)
         else (bb * qa + ba * qb) / (qb + qa))) ∧
    (∀ bb ba qb qa : ℚ, bb ≤ ba → 0 ≤ qb → 0 ≤ qa →
      0 ≤ calculate_spread (some bb) (some ba) ∧
      (min bb ba ≤ calculate_midprice (some bb) (some ba) ∧
        calculate_midprice (some bb) (some ba) ≤ max bb ba) ∧
      (min bb ba ≤ calculate_microprice (some bb) (some ba) qb qa ∧
        calculate_microprice (some bb) (some ba) qb qa ≤ max bb ba)) := by
  refine ⟨?_, ?_, ?_⟩
  · intro bids asks depth
    constructor
    · rfl
    · intro hb ha
      set vb := ((bids.take depth).map Prod.snd).sum with hvb
      set va := ((asks.take depth).map Prod.snd).sum with hva
      have h0b : 0 ≤ vb := sum_map_snd_take_nonneg bids depth hb
      have h0a : 0 ≤ va := sum_map_snd_take_nonneg asks depth ha
      unfold calculate_imbalance
      rw [← hvb, ← hva]
      by_cases htot : vb + va = 0
      · simp [htot]
      · have hpos : 0 < vb + va := lt_of_le_of_ne (by linarith) (Ne.symm htot)
        rw [if_neg htot]
        constructor
        · rw [le_div_iff₀ hpos]
          linarith
        · rw [div_le_one hpos]
          linarith
  · intro bb ba qb qa
    rfl
  · intro bb ba qb qa hle hqb hqa
    have hmin : min bb ba = bb := min_eq_left hle
    have hmax : max bb ba = ba := max_eq_right hle
    refine ⟨?_, ?_, ?_⟩
    · simp only [calculate_spread]
      linarith
    · rw [hmin, hmax]
      simp only [calculate_midprice]
      constructor <;> linarith
    · rw [hmin, hmax]
      simp only [calculate_microprice]
      by_cases htot : qb + qa = 0
      · rw [if_pos htot]
        constructor <;> linarith
      · have hpos : 0 < qb + qa := lt_of_le_of_ne (by linarith) (Ne.symm htot)
        rw [if_neg htot]
        constructor
        · rw [le_div_iff₀ hpos]
          nlinarith
        · rw [div_le_iff₀ hpos]
          nlinarith

/-- C9 witness: the bound conjuncts instantiated on a concrete book. -/
theorem C9_metric_bounds_witness :
    (-1 ≤ calculate_imbalance [(100, 2)] [(101, 6)] 10 ∧
      calculate_imbalance [(100, 2)] [(101, 6)] 10 ≤ 1) ∧
    (0 ≤ calculate_spread (some 100) (some 101) ∧
      (min (100 : ℚ) 101 ≤ calculate_midprice (some 100) (some 101) ∧
        calculate_midprice (some 100) (some 101) ≤ max (100 : ℚ) 101) ∧
      (min (100 : ℚ) 101 ≤ calculate_microprice (some 100) (some 101) 9 1 ∧
        calculate_microprice (some 100) (some 101) 9 1 ≤ max (100 : ℚ) 101)) :=
  ⟨(C9_metric_bounds.1 [(100, 2)] [(101, 6)] 10).2
      (by intro x hx; simp at hx; norm_num [hx])
      (by intro x hx; simp at hx; norm_num [hx]),
    C9_metric_bounds.2.2 100 101 9 1 (by norm_num) (by norm_num) (by norm_num)⟩

/-- C4: the engine `apply_diff` drops stale events (`u ≤ last_update_id`)
with the whole state — book, id, OFI window, top-of-book memory — unchanged;
for fresh events it raises `ID_GAP` in strict mode iff `U ≠ last_update_id + 1`
and `BRIDGING_FAILED` in bridging mode iff `¬(U ≤ last_update_id + 1 ≤ u)`,
leaving the state unchanged when raising; and on every non-raising call
`last_update_id` becomes `u`, hence never decreases and strictly increases
on applied diffs. -/
theorem C4_apply_diff_gating :
    ∀ (st : Engine.OrderBookE) (ev : DepthEvent),
      (∀ strict, ev.u ≤ st.last_update_id →
        Engine.apply_diff st ev strict = (st, none)) ∧
      (st.last_update_id < ev.u →
        (((Engine.apply_diff st ev true).2 = some .idGap) ↔
          ev.U ≠ st.last_update_id + 1) ∧
        (((Engine.apply_diff st ev false).2 = some .bridgingFailed) ↔
          ¬ (ev.U ≤ st.last_update_id + 1 ∧ st.last_update_id + 1 ≤ ev.u))) ∧
      (∀ strict e, (Engine.apply_diff st ev strict).2 = some e →
        (Engine.apply_diff st ev strict).1 = st) ∧
      (∀ strict, (Engine.apply_diff st ev strict).2 = none →
        st.last_update_id < ev.u →
        (Engine.apply_diff st ev strict).1.last_update_id = ev.u) ∧
      (∀ strict, (Engine.apply_diff st ev strict).2 = none →
        st.last_update_id ≤ (Engine.apply_diff st ev strict).1.last_update_id) := by
  intro st ev
  have hlast : ∀ e, (Engine.applyAndFinish st e).last_update_id = e.u := by
    intro e
    simp [Engine.applyAndFinish, Engine.calcAndStoreOfi]
  refine ⟨?_, ?_, ?_, ?_, ?_⟩
  · intro strict hstale
    simp [Engine.apply_diff, hstale]
  · intro hfresh
    have hns : ¬ ev.u ≤ st.last_update_id := not_le.mpr hfresh
    constructor
    · unfold Engine.apply_diff
      rw [if_neg hns]
      by_cases hgap : ev.U ≠ st.last_update_id + 1 <;> simp [hgap]
    · unfold Engine.apply_diff
      rw [if_neg hns]
      by_cases hbr : ev.U ≤ st.last_update_id + 1 ∧ st.last_update_id + 1 ≤ ev.u <;>
        simp [hbr]
  · intro strict e herr
    by_cases h1 : ev.u ≤ st.last_update_id
    · simp [Engine.apply_diff, h1]
    · rcases strict with _ | _
      · by_cases h2 : ev.U ≤ st.last_update_id + 1 ∧ st.last_update_id + 1 ≤ ev.u
        · exact absurd herr (by simp [Engine.apply_diff, h1, h2])
        · simp [Engine.apply_diff, h1, h2]
      · by_cases h2 : ev.U = st.last_update_id + 1
        · exact absurd herr (by simp [Engine.apply_diff, h1, h2])
        · simp [Engine.apply_diff, h1, h2]
  · intro strict hok hfresh
    have h1 : ¬ ev.u ≤ st.last_update_id := not_le.mpr hfresh
    rcases strict with _ | _
    · by_cases h2 : ev.U ≤ st.last_update_id + 1 ∧ st.last_update_id + 1 ≤ ev.u
      · simp [Engine.apply_diff, h1, h2, hlast]
      · exact absurd hok (by simp [Engine.apply_diff, h1, h2])
    · by_cases h2 : ev.U = st.last_update_id + 1
      · simp [Engine.apply_diff, h1, h2, hlast]
      · exact absurd hok (by simp [Engine.apply_diff, h1, h2])
  · intro strict hok
    by_cases h1 : ev.u ≤ st.last_update_id
    · simp [Engine.apply_diff, h1]
    · have hfresh : st.last_update_id < ev.u := not_le.mp h1
      rcases strict with _ | _
      · by_cases h2 : ev.U ≤ st.last_update_id + 1 ∧ st.last_update_id + 1 ≤ ev.u
        · simp only [Engine.apply_diff, h1, h2]
          simp [hlast]
          omega
        · exact absurd hok (by simp [Engine.apply_diff, h1, h2])
      · by_cases h2 : ev.U = st.last_update_id + 1
        · simp only [Engine.apply_diff, h1, h2]
          simp [hlast]
          omega
        · exact absurd hok (by simp [Engine.apply_diff, h1, h2])

/-- C4 witness: concrete instances of the stale-drop, the strict `ID_GAP`
raise and the bridging acceptance. -/
theorem C4_apply_diff_gating_witness :
    (Engine.apply_diff ⟨[], [], 150, none, 0, none, 0, [], 0⟩
        ⟨149, 150, [], []⟩ true =
      (⟨[], [], 150, none, 0, none, 0, [], 0⟩, none)) ∧
    ((Engine.apply_diff ⟨[], [], 150, none, 0, none, 0, [], 0⟩
        ⟨152, 155, [], []⟩ true).2 = some .idGap) ∧
    ((Engine.apply_diff ⟨[], [], 100, none, 0, none, 0, [], 0⟩
        ⟨99, 103, [(50000, 1)], []⟩ false).1.last_update_id = 103) := by
  refine ⟨?_, ?_, ?_⟩
  · exact (C4_apply_diff_gating ⟨[], [], 150, none, 0, none, 0, [], 0⟩
      ⟨149, 150, [], []⟩).1 true (by decide)
  · exact ((C4_apply_diff_gating ⟨[], [], 150, none, 0, none, 0, [], 0⟩
      ⟨152, 155, [], []⟩).2.1 (by decide)).1.mpr (by decide)
  · exact (C4_apply_diff_gating ⟨[], [], 100, none, 0, none, 0, [], 0⟩
      ⟨99, 103, [(50000, 1)], []⟩).2.2.2.1 false (by decide) (by decide)

/-- C1 counterexample: (a) the engine `apply_diff`
(`src/orderbook/engine.py`) applies a diff that leaves the book crossed
(best bid 10 ≥ best ask 5, both sides non-empty) and returns without raising
— it performs no crossed-book check at all; (b) the realtime-server
`apply_diff` skips its crossed-book check whenever a best price is `0.0`
(Python truthiness): best bid 10 ≥ best ask 0 yet no raise. -/
theorem C1_counterexample :
    (let res := Engine.apply_diff ⟨[], [], 100, none, 0, none, 0, [], 0⟩
      ⟨101, 101, [(10, 1)], [(5, 1)]⟩ true
    res.2 = none ∧ res.1.bids ≠ [] ∧ res.1.asks ≠ [] ∧
      Engine.get_best_bid res.1 = some 10 ∧
      Engine.get_best_ask res.1 = some 5 ∧ (5 : ℚ) ≤ 10) ∧
    (let res := Realtime.apply_diff ⟨[], [], 100⟩
      ⟨101, 101, [(10, 1)], [(0, 1)]⟩ true
    res.2 = none ∧ res.1.bids ≠ [] ∧ res.1.asks ≠ [] ∧
      Realtime.best_bid res.1 = some 10 ∧
      Realtime.best_ask res.1 = some 0 ∧ (0 : ℚ) ≤ 10) := by
  constructor
  · refine ⟨?_, ?_, ?_, ?_, ?_, ?_⟩ <;> decide
  · refine ⟨?_, ?_, ?_, ?_, ?_, ?_⟩ <;> decide

/-- C1 amended: only the realtime-server `apply_diff` re-checks the top of
book, and its check is guarded by Python truthiness; whenever it accepts an
event (`u > last_update_id`) and returns without raising, and both sides are
non-empty with nonzero best prices, the book is uncrossed:
`best_bid < best_ask`.  The engine `apply_diff` performs no such check. -/
theorem C1_crossed_book_amended :
    ∀ (st : Realtime.OrderBookR) (ev : DepthEvent) (strict : Bool)
      (st' : Realtime.OrderBookR),
      st.last_update_id < ev.u →
      Realtime.apply_diff st ev strict = (st', none) →
      ∀ bb ba, Realtime.best_bid st' = some bb →
        Realtime.best_ask st' = some ba → bb ≠ 0 → ba ≠ 0 → bb < ba := by
  intro st ev strict st' hfresh hok bb ba hbb hba hbb0 hba0
  have hns : ¬ ev.u ≤ st.last_update_id := not_le.mpr hfresh
  unfold Realtime.apply_diff at hok
  rw [if_neg hns] at hok
  split at hok
  · exact absurd (congrArg Prod.snd hok) (by simp)
  · split at hok
    · exact absurd (congrArg Prod.snd hok) (by simp)
    · dsimp only at hok
      split at hok
      · exact absurd (congrArg Prod.snd hok) (by simp)
      · rename_i hnc
        have hst : st' = _ := (congrArg Prod.fst hok).symm
        rw [hst] at hbb hba
        rw [hbb, hba] at hnc
        by_contra hlt
        exact hnc ⟨by simp [Realtime.truthy, hbb0], by simp [Realtime.truthy, hba0],
          by simpa using not_lt.mp hlt⟩

/-- C1 amended witness: a concrete accepted diff on the realtime book whose
resulting best bid 10 and best ask 11 the theorem proves uncrossed. -/
theorem C1_crossed_book_amended_witness : (10 : ℚ) < 11 :=
  C1_crossed_book_amended ⟨[], [], 100⟩ ⟨101, 101, [(10, 1)], [(11, 1)]⟩ true
    ⟨[(10, 1)], [(11, 1)], 101⟩ (by decide) (by decide) 10 11
    (by decide) (by decide) (by decide) (by decide)

/-- C2: the market walk is exactly the spec's min-fill accumulation —
over the asks (non-negative keys, ascending = best-to-worst for BUY)
directly, and over the bids (keys `-price`, ascending key = descending
price = best-to-worst for SELL) after restoring the prices; and the
concrete scenario: a market buy of 3 against asks
`[(100,1),(101,2),(102,5)]` fills 1@100 + 2@101, cost 302, average 302/3,
taker fee 0.1208, so `balance_usd` moves by −302.1208 and `balance_btc`
by +3, with the order FILLED. -/
theorem C2_market_order_walk :
    (∀ (levels : List (ℚ × ℚ)) (Q C : ℚ), (∀ pq ∈ levels, 0 ≤ pq.1) →
      Paper.marketWalk levels Q C = Paper.walkSpec levels Q C) ∧
    (∀ (levels : List (ℚ × ℚ)) (Q C : ℚ), (∀ pq ∈ levels, pq.1 ≤ 0) →
      Paper.marketWalk levels Q C =
        Paper.walkSpec (levels.map (fun pq => (-pq.1, pq.2))) Q C) ∧
    ((Paper.process_market_order
        (Paper.place_order (Paper.PaperState.init 100000 (2/10000) (4/10000))
          1 0 .BUY .MARKET 3 0 0)
        1 ⟨[], [(100, 1), (101, 2), (102, 5)], 0, none, 0, none, 0, [], 0⟩).balance_usd
        = 100000 - 302.1208 ∧
     (Paper.process_market_order
        (Paper.place_order (Paper.PaperState.init 100000 (2/10000) (4/10000))
          1 0 .BUY .MARKET 3 0 0)
        1 ⟨[], [(100, 1), (101, 2), (102, 5)], 0, none, 0, none, 0, [], 0⟩).balance_btc
        = 0 + 3 ∧
     (Paper.lookupOrder (Paper.process_market_order
        (Paper.place_order (Paper.PaperState.init 100000 (2/10000) (4/10000))
          1 0 .BUY .MARKET 3 0 0)
        1 ⟨[], [(100, 1), (101, 2), (102, 5)], 0, none, 0, none, 0, [], 0⟩).orders 1).map
          Paper.Order.status = some .FILLED ∧
     (Paper.lookupOrder (Paper.process_market_order
        (Paper.place_order (Paper.PaperState.init 100000 (2/10000) (4/10000))
          1 0 .BUY .MARKET 3 0 0)
        1 ⟨[], [(100, 1), (101, 2), (102, 5)], 0, none, 0, none, 0, [], 0⟩).orders 1).map
          Paper.Order.filled_quantity = some 3 ∧
     (Paper.lookupOrder (Paper.process_market_order
        (Paper.place_order (Paper.PaperState.init 100000 (2/10000) (4/10000))
          1 0 .BUY .MARKET 3 0 0)
        1 ⟨[], [(100, 1), (101, 2), (102, 5)], 0, none, 0, none, 0, [], 0⟩).orders 1).map
          Paper.Order.average_price = some (302/3)) := by
  refine ⟨marketWalk_eq_walkSpec_nonneg, marketWalk_eq_walkSpec_nonpos,
    ?_, ?_, ?_, ?_, ?_⟩ <;>
  · simp only [Paper.process_market_order, Paper.place_order,
      Paper.PaperState.init, Paper.lookupOrder, Paper.finalize_fill,
      Paper.updateOrder, if_pos, if_neg, reduceCtorEq, reduceIte]
    norm_num [Paper.marketWalk, min_def, abs_of_nonneg, Paper.lookupOrder]

/-- C2 witness: the BUY-side walk/spec agreement instantiated on a concrete
ask ladder. -/
theorem C2_market_order_walk_witness :
    Paper.marketWalk [(100, 2)] 5 0 = Paper.walkSpec [(100, 2)] 5 0 :=
  C2_market_order_walk.1 [(100, 2)] 5 0 (by decide)

/-- C10: when the opposite side's total liquidity `V` is below the order
quantity, `process_market_order` still marks the order FILLED with
`filled_quantity = V`; with an empty opposite side it marks it FILLED with
`filled_quantity = 0` and `average_price = 0` and leaves both balances
unchanged. -/
theorem C10_insufficient_liquidity :
    ∀ (st : Paper.PaperState) (oid : Nat) (o : Paper.Order)
      (book : Engine.OrderBookE),
      Paper.lookupOrder st.orders oid = some o → o.status ≠ .FILLED →
      ((∀ pq ∈ (if o.side = .BUY then book.asks else book.bids), 0 ≤ pq.2) →
        ((if o.side = .BUY then book.asks else book.bids).map Prod.snd).sum
            < o.quantity →
        (Paper.lookupOrder (Paper.process_market_order st oid book).orders
            oid).map Paper.Order.status = some .FILLED ∧
        (Paper.lookupOrder (Paper.process_market_order st oid book).orders
            oid).map Paper.Order.filled_quantity =
          some (((if o.side = .BUY then book.asks else book.bids).map
            Prod.snd).sum)) ∧
      ((if o.side = .BUY then book.asks else book.bids) = [] →
        (Paper.lookupOrder (Paper.process_market_order st oid book).orders
            oid).map Paper.Order.status = some .FILLED ∧
        (Paper.lookupOrder (Paper.process_market_order st oid book).orders
            oid).map Paper.Order.filled_quantity = some 0 ∧
        (Paper.lookupOrder (Paper.process_market_order st oid book).orders
            oid).map Paper.Order.average_price = some 0 ∧
        (Paper.process_market_order st oid book).balance_usd = st.balance_usd ∧
        (Paper.process_market_order st oid book).balance_btc = st.balance_btc) := by
  intro st oid o book hlk hnf
  rw [process_market_order_eq book hlk hnf]
  constructor
  · intro hv hsum
    rw [marketWalk_exhausts _ _ _ hv hsum]
    rw [finalize_fill_lookup _ _ _ hlk]
    simp [sub_sub_cancel]
  · intro hempty
    rw [hempty]
    have hwalk : Paper.marketWalk [] o.quantity 0 = (0, o.quantity) := rfl
    rw [hwalk]
    simp only [sub_self, lt_irrefl, if_neg, reduceIte]
    rw [finalize_fill_lookup _ _ _ hlk]
    refine ⟨rfl, by simp, by simp, ?_, ?_⟩
    · exact (finalize_fill_zero false hlk).1
    · exact (finalize_fill_zero false hlk).2

/-- C10 witness: a market buy of 3 against a single ask level of quantity 1
(total liquidity 1 < 3) ends FILLED with `filled_quantity = 1`. -/
theorem C10_insufficient_liquidity_witness :
    (Paper.lookupOrder (Paper.process_market_order
        (Paper.place_order (Paper.PaperState.init 100000 (2/10000) (4/10000))
          1 0 .BUY .MARKET 3 0 0)
        1 ⟨[], [(100, 1)], 0, none, 0, none, 0, [], 0⟩).orders 1).map
      Paper.Order.status = some .FILLED ∧
    (Paper.lookupOrder (Paper.process_market_order
        (Paper.place_order (Paper.PaperState.init 100000 (2/10000) (4/10000))
          1 0 .BUY .MARKET 3 0 0)
        1 ⟨[], [(100, 1)], 0, none, 0, none, 0, [], 0⟩).orders 1).map
      Paper.Order.filled_quantity = some 1 :=
  have h := (C10_insufficient_liquidity
    (Paper.place_order (Paper.PaperState.init 100000 (2/10000) (4/10000))
      1 0 .BUY .MARKET 3 0 0)
    1 ⟨1, 0, .BUY, .MARKET, 3, 0, 0, .PENDING, 0, 0, 0, 0⟩
    ⟨[], [(100, 1)], 0, none, 0, none, 0, [], 0⟩ rfl (by decide)).1
    (by decide) (by norm_num)
  ⟨h.1, by simpa using h.2⟩

/-- C5: across a single fill of `qty` at `price`, `cost = qty·price` and
`fee = cost · (maker_fee if is_maker else taker_fee)` when fees are enabled
else 0; BUY moves `balance_usd` by `-(cost + fee)` and `balance_btc` by
`+qty`, SELL by `+(cost - fee)` and `-qty`; and equity marked at the fill
price changes by exactly `-fee` on both sides. -/
theorem C5_fill_fee_identity :
    ∀ (st : Paper.PaperState) (oid : Nat) (o : Paper.Order) (qty price : ℚ)
      (is_maker : Bool),
      Paper.lookupOrder st.orders oid = some o →
      (o.side = .BUY →
        (Paper.finalize_fill st oid qty price is_maker).balance_usd =
          st.balance_usd - (qty * price +
            (if st.fees_enabled then
              qty * price * (if is_maker then st.maker_fee else st.taker_fee)
             else 0)) ∧
        (Paper.finalize_fill st oid qty price is_maker).balance_btc =
          st.balance_btc + qty) ∧
      (o.side = .SELL →
        (Paper.finalize_fill st oid qty price is_maker).balance_usd =
          st.balance_usd + (qty * price -
            (if st.fees_enabled then
              qty * price * (if is_maker then st.maker_fee else st.taker_fee)
             else 0)) ∧
        (Paper.finalize_fill st oid qty price is_maker).balance_btc =
          st.balance_btc - qty) ∧
      ((Paper.finalize_fill st oid qty price is_maker).balance_usd +
          (Paper.finalize_fill st oid qty price is_maker).balance_btc * price) -
        (st.balance_usd + st.balance_btc * price) =
        -(if st.fees_enabled then
            qty * price * (if is_maker then st.maker_fee else st.taker_fee)
          else 0) ∧
      (0 < price →
        (Paper.get_portfolio_snapshot
            (Paper.finalize_fill st oid qty price is_maker) price).equity -
          (Paper.get_portfolio_snapshot st price).equity =
          -(if st.fees_enabled then
              qty * price * (if is_maker then st.maker_fee else st.taker_fee)
            else 0)) := by
  intro st oid o qty price is_maker h
  unfold Paper.finalize_fill
  rw [h]
  dsimp only
  refine ⟨?_, ?_, ?_, ?_⟩
  · intro hbuy
    simp only [hbuy, if_pos rfl, reduceIte]
    constructor <;> ring_nf
  · intro hsell
    rw [hsell]
    simp only [reduceCtorEq, if_false]
    constructor <;> ring_nf
  · rcases o.side
    · simp only [reduceIte]
      ring
    · simp only [reduceCtorEq, if_false]
      ring
  · intro hp
    simp only [Paper.get_portfolio_snapshot, if_pos hp]
    rcases o.side
    · simp only [reduceIte]
      ring
    · simp only [reduceCtorEq, if_false]
      ring

/-- C5 witness: the equity identity instantiated on a concrete state with one
catalogued order, a maker fill of 2 at price 50 with maker fee 0.0002:
equity at the fill price drops by the fee 0.02. -/
theorem C5_fill_fee_identity_witness :
    ((Paper.finalize_fill
        ⟨0, 0, 2/10000, 4/10000,
          [(1, ⟨1, 0, .BUY, .LIMIT, 1, 100, 0, .OPEN, 0, 0, 0, 0⟩)], [1],
          50, 200, 0, 0, true⟩ 1 2 50 true).balance_usd +
      (Paper.finalize_fill
        ⟨0, 0, 2/10000, 4/10000,
          [(1, ⟨1, 0, .BUY, .LIMIT, 1, 100, 0, .OPEN, 0, 0, 0, 0⟩)], [1],
          50, 200, 0, 0, true⟩ 1 2 50 true).balance_btc * 50) -
      ((0 : ℚ) + (0 : ℚ) * 50) =
      -(if true then (2 : ℚ) * 50 * (if true then 2/10000 else 4/10000) else 0) :=
  (C5_fill_fee_identity
    ⟨0, 0, 2/10000, 4/10000,
      [(1, ⟨1, 0, .BUY, .LIMIT, 1, 100, 0, .OPEN, 0, 0, 0, 0⟩)], [1],
      50, 200, 0, 0, true⟩ 1 ⟨1, 0, .BUY, .LIMIT, 1, 100, 0, .OPEN, 0, 0, 0, 0⟩
    2 50 true rfl).2.2.1

/-- C3: one trade `(p, q, m)` against one catalogued limit order at price
`L = o.price`.  BUY side: `p < L` fills the order at `L` as maker (status
FILLED, average price `L`, maker fee on the notional, id erased from the
index); `p = L` with `m = true` adds `q` to `processed_volume` and fills at
`L` as maker exactly when the updated `processed_volume` exceeds the order
quantity; `p = L` with `m = false` and `p > L` change nothing.  SELL side is
symmetric with the inequalities reversed and `m = false` advancing the
queue. -/
theorem C3_limit_order_advancement :
    ∀ (st : Paper.PaperState) (oid : Nat) (o : Paper.Order)
      (trade : Paper.Trade),
      Paper.lookupOrder st.orders oid = some o →
      (o.side = .BUY →
        (trade.p < o.price →
          Paper.lookupOrder (Paper.limitStep trade st oid).orders oid =
            some { o with
              filled_quantity := o.quantity
              average_price := o.price
              status := .FILLED } ∧
          (Paper.limitStep trade st oid).open_orders =
            st.open_orders.erase oid ∧
          (Paper.limitStep trade st oid).balance_usd =
            st.balance_usd - o.quantity * o.price -
              (if st.fees_enabled then o.quantity * o.price * st.maker_fee
               else 0) ∧
          (Paper.limitStep trade st oid).balance_btc =
            st.balance_btc + o.quantity) ∧
        (trade.p = o.price → trade.m = true →
          (o.quantity < o.processed_volume + trade.q →
            Paper.lookupOrder (Paper.limitStep trade st oid).orders oid =
              some { o with
                processed_volume := o.processed_volume + trade.q
                filled_quantity := o.quantity
                average_price := o.price
                status := .FILLED } ∧
            (Paper.limitStep trade st oid).open_orders =
              st.open_orders.erase oid) ∧
          (¬ o.quantity < o.processed_volume + trade.q →
            Paper.limitStep trade st oid =
              { st with orders := (Paper.updateOrder st.orders oid
                  { o with processed_volume := o.processed_volume + trade.q }) })) ∧
        (trade.p = o.price → trade.m = false →
          Paper.limitStep trade st oid = st) ∧
        (o.price < trade.p → Paper.limitStep trade st oid = st)) ∧
      (o.side = .SELL →
        (o.price < trade.p →
          Paper.lookupOrder (Paper.limitStep trade st oid).orders oid =
            some { o with
              filled_quantity := o.quantity
              average_price := o.price
              status := .FILLED } ∧
          (Paper.limitStep trade st oid).open_orders =
            st.open_orders.erase oid ∧
          (Paper.limitStep trade st oid).balance_usd =
            st.balance_usd + o.quantity * o.price -
              (if st.fees_enabled then o.quantity * o.price * st.maker_fee
               else 0) ∧
          (Paper.limitStep trade st oid).balance_btc =
            st.balance_btc - o.quantity) ∧
        (trade.p = o.price → trade.m = false →
          (o.quantity < o.processed_volume + trade.q →
            Paper.lookupOrder (Paper.limitStep trade st oid).orders oid =
              some { o with
                processed_volume := o.processed_volume + trade.q
                filled_quantity := o.quantity
                average_price := o.price
                status := .FILLED } ∧
            (Paper.limitStep trade st oid).open_orders =
              st.open_orders.erase oid) ∧
          (¬ o.quantity < o.processed_volume + trade.q →
            Paper.limitStep trade st oid =
              { st with orders := (Paper.updateOrder st.orders oid
                  { o with processed_volume := o.processed_volume + trade.q }) })) ∧
        (trade.p = o.price → trade.m = true →
          Paper.limitStep trade st oid = st) ∧
        (trade.p < o.price → Paper.limitStep trade st oid = st)) := by
  intro st oid o trade hlk
  obtain ⟨oi, osym, oside, otype, oq, opr, oca, ost, ofq, oap, oiq, opv⟩ := o
  constructor
  · intro hbuy
    subst hbuy
    refine ⟨?_, ?_, ?_, ?_⟩
    · intro hp
      simp only [Paper.limitStep, hlk, if_pos hp]
      refine ⟨finalize_fill_lookup _ _ _ hlk, ?_, ?_, ?_⟩
      · simp [Paper.finalize_fill, hlk]
      · simp only [Paper.finalize_fill, hlk, reduceIte]
      · simp [Paper.finalize_fill, hlk]
    · intro hp hm
      have hn1 : ¬ trade.p < opr := by
        rw [hp]
        exact lt_irrefl _
      have hlk' : Paper.lookupOrder
          (Paper.updateOrder st.orders oid
            ⟨oi, osym, .BUY, otype, oq, opr, oca, ost, ofq, oap, oiq,
              opv + trade.q⟩) oid =
          some ⟨oi, osym, .BUY, otype, oq, opr, oca, ost, ofq, oap, oiq,
            opv + trade.q⟩ :=
        lookup_updateOrder_self _ hlk
      constructor
      · intro hfill
        simp only [Paper.limitStep, hlk, if_neg hn1, if_pos hp, hm,
          if_pos rfl, reduceIte, if_pos hfill]
        exact ⟨finalize_fill_lookup _ _ _ hlk', by simp [Paper.finalize_fill, hlk']⟩
      · intro hnofill
        simp only [Paper.limitStep, hlk, if_neg hn1, if_pos hp, hm,
          if_pos rfl, reduceIte, if_neg hnofill]
    · intro hp hm
      have hn1 : ¬ trade.p < opr := by
        rw [hp]
        exact lt_irrefl _
      simp only [Paper.limitStep, hlk, if_neg hn1, if_pos hp, hm,
        Bool.false_eq_true, if_neg, reduceIte]
    · intro hp
      have h1 : ¬ trade.p < opr := not_lt.mpr (le_of_lt hp)
      have h2 : ¬ trade.p = opr := ne_of_gt hp
      simp only [Paper.limitStep, hlk, if_neg h1, if_neg h2, reduceIte]
  · intro hsell
    subst hsell
    refine ⟨?_, ?_, ?_, ?_⟩
    · intro hp
      simp only [Paper.limitStep, hlk, if_pos hp]
      refine ⟨finalize_fill_lookup _ _ _ hlk, ?_, ?_, ?_⟩
      · simp [Paper.finalize_fill, hlk]
      · simp only [Paper.finalize_fill, hlk, reduceCtorEq, reduceIte]
      · simp [Paper.finalize_fill, hlk, reduceCtorEq]
    · intro hp hm
      have hn1 : ¬ opr < trade.p := by
        rw [hp]
        exact lt_irrefl _
      have hlk' : Paper.lookupOrder
          (Paper.updateOrder st.orders oid
            ⟨oi, osym, .SELL, otype, oq, opr, oca, ost, ofq, oap, oiq,
              opv + trade.q⟩) oid =
          some ⟨oi, osym, .SELL, otype, oq, opr, oca, ost, ofq, oap, oiq,
            opv + trade.q⟩ :=
        lookup_updateOrder_self _ hlk
      constructor
      · intro hfill
        simp only [Paper.limitStep, hlk, if_neg hn1, if_pos hp, hm,
          Bool.not_false, if_pos rfl, reduceIte, if_pos hfill]
        refine ⟨finalize_fill_lookup _ _ _ hlk', ?_⟩
        have hoo : (Paper.finalize_fill
            { st with orders := (Paper.updateOrder st.orders oid
                ⟨oi, osym, .SELL, otype, oq, opr, oca, ost, ofq, oap, oiq,
                  opv + trade.q⟩) }
            oid oq opr true).open_orders = st.open_orders := by
          simp [Paper.finalize_fill, hlk']
        rw [hoo]
        by_cases hmem : oid ∈ st.open_orders
        · simp [hmem]
        · simp [hmem, List.erase_of_not_mem hmem]
      · intro hnofill
        simp only [Paper.limitStep, hlk, if_neg hn1, if_pos hp, hm,
          Bool.not_false, if_pos rfl, reduceIte, if_neg hnofill]
    · intro hp hm
      have hn1 : ¬ opr < trade.p := by
        rw [hp]
        exact lt_irrefl _
      simp only [Paper.limitStep, hlk, if_neg hn1, if_pos hp, hm,
        Bool.not_true, Bool.false_eq_true, if_neg, reduceIte]
    · intro hp
      have h1 : ¬ opr < trade.p := not_lt.mpr (le_of_lt hp)
      have h2 : ¬ trade.p = opr := ne_of_lt hp
      simp only [Paper.limitStep, hlk, if_neg h1, if_neg h2, reduceIte]

/-- C3 witness: an open BUY limit at 100 through-traded by a sell at 99.5
fills at 100 as maker and leaves the index. -/
theorem C3_limit_order_advancement_witness :
    Paper.lookupOrder
      (Paper.limitStep ⟨99.5, 1, true⟩
        ⟨100000, 0, 2/10000, 4/10000,
          [(1, ⟨1, 0, .BUY, .LIMIT, 1, 100, 0, .OPEN, 0, 0, 0, 0⟩)], [1],
          50, 200, 0, 0, true⟩ 1).orders 1 =
      some ⟨1, 0, .BUY, .LIMIT, 1, 100, 0, .FILLED, 1, 100, 0, 0⟩ ∧
    (Paper.limitStep ⟨99.5, 1, true⟩
      ⟨100000, 0, 2/10000, 4/10000,
        [(1, ⟨1, 0, .BUY, .LIMIT, 1, 100, 0, .OPEN, 0, 0, 0, 0⟩)], [1],
        50, 200, 0, 0, true⟩ 1).open_orders = ([1] : List Nat).erase 1 :=
  have h := (C3_limit_order_advancement
    ⟨100000, 0, 2/10000, 4/10000,
      [(1, ⟨1, 0, .BUY, .LIMIT, 1, 100, 0, .OPEN, 0, 0, 0, 0⟩)], [1],
      50, 200, 0, 0, true⟩ 1 ⟨1, 0, .BUY, .LIMIT, 1, 100, 0, .OPEN, 0, 0, 0, 0⟩
    ⟨99.5, 1, true⟩ rfl).1 rfl
  have h2 := h.1 (by norm_num)
  ⟨h2.1, h2.2.1⟩

/-- C6 counterexample: an engine constructed with initial balance 50000 has
`balance_usd = 50000`, yet after `reset` the balance is the hardcoded
`100000`, not the constructed initial balance. -/
theorem C6_counterexample :
    (Paper.PaperState.init 50000 (2/10000) (4/10000)).balance_usd = 50000 ∧
    (Paper.reset (Paper.PaperState.init 50000 (2/10000) (4/10000))).balance_usd
      = 100000 ∧
    (100000 : ℚ) ≠ 50000 :=
  ⟨rfl, rfl, by norm_num⟩

/-- C6 amended: `reset` sets `balance_usd` to the hardcoded default 100000
(the constructed initial balance only when the engine was constructed with
the default), sets `balance_btc` to 0, empties the order catalog and the
open-order index, zeroes realized PnL and traded volume, and leaves every
other field (fees, latency bounds) of the same instance intact. -/
theorem C6_reset_amended :
    ∀ st : Paper.PaperState,
      (Paper.reset st).balance_usd = 100000 ∧
      (Paper.reset st).balance_btc = 0 ∧
      (Paper.reset st).orders = [] ∧
      (Paper.reset st).open_orders = [] ∧
      (Paper.reset st).realized_pnl = 0 ∧
      (Paper.reset st).total_volume_traded = 0 ∧
      (Paper.reset st).maker_fee = st.maker_fee ∧
      (Paper.reset st).taker_fee = st.taker_fee ∧
      (Paper.reset st).fees_enabled = st.fees_enabled ∧
      (Paper.reset st).min_latency = st.min_latency ∧
      (Paper.reset st).max_latency = st.max_latency :=
  fun _ => ⟨rfl, rfl, rfl, rfl, rfl, rfl, rfl, rfl, rfl, rfl, rfl⟩

/-! ## The open-order index invariant (C7) -/

theorem finalize_fill_open_orders (st : Paper.PaperState) (oid : Nat)
    (qty price : ℚ) (is_maker : Bool) :
    (Paper.finalize_fill st oid qty price is_maker).open_orders =
      st.open_orders := by
  cases hlk : Paper.lookupOrder st.orders oid <;>
    simp [Paper.finalize_fill, hlk]

theorem finalize_fill_lookup_ne {st : Paper.PaperState} {oid j : Nat}
    (qty price : ℚ) (is_maker : Bool) (hj : j ≠ oid) :
    Paper.lookupOrder (Paper.finalize_fill st oid qty price is_maker).orders j =
      Paper.lookupOrder st.orders j := by
  cases hlk : Paper.lookupOrder st.orders oid <;>
    simp [Paper.finalize_fill, hlk, lookup_updateOrder_ne _ hj]

/-- The invariant only reads the order catalog and the open-order index. -/
theorem inv_congr {st₁ st₂ : Paper.PaperState} (h : Paper.OpenIndexInv st₁)
    (ho : st₂.orders = st₁.orders) (hoo : st₂.open_orders = st₁.open_orders) :
    Paper.OpenIndexInv st₂ := by
  obtain ⟨h1, h2, h3⟩ := h
  refine ⟨hoo ▸ h1, ?_, ?_⟩
  · intro j
    rw [hoo, ho]
    exact h2 j
  · intro j o ho₂ hty
    rw [ho] at ho₂
    exact h3 j o ho₂ hty

/-- Closing (filling or cancelling) the order at `oid` and erasing it from
the index preserves the invariant. -/
theorem inv_close_erase {st : Paper.PaperState} {oid : Nat} {o : Paper.Order}
    (o' : Paper.Order) (h : Paper.OpenIndexInv st)
    (hlk : Paper.lookupOrder st.orders oid = some o)
    (hcl : o'.status ≠ .OPEN) :
    Paper.OpenIndexInv
      { st with
          orders := Paper.updateOrder st.orders oid o'
          open_orders := st.open_orders.erase oid } := by
  obtain ⟨hnd, hmem, hmkt⟩ := h
  refine ⟨hnd.erase oid, ?_, ?_⟩
  · intro j
    by_cases hj : j = oid
    · subst hj
      refine iff_of_false hnd.not_mem_erase ?_
      rintro ⟨o₂, ho₂, hopn⟩
      rw [lookup_updateOrder_self o' hlk] at ho₂
      cases ho₂
      exact hcl hopn
    · rw [hnd.mem_erase_iff, lookup_updateOrder_ne o' hj]
      simp only [ne_eq, hj, not_false_iff, true_and]
      exact hmem j
  · intro j o₂ ho₂ hty
    by_cases hj : j = oid
    · subst hj
      rw [lookup_updateOrder_self o' hlk] at ho₂
      cases ho₂
      exact hcl
    · rw [lookup_updateOrder_ne o' hj] at ho₂
      exact hmkt j o₂ ho₂ hty

/-- Closing the order at `oid` when it is not in the index preserves the
invariant (the `process_market_order` case). -/
theorem inv_close_notmem {st : Paper.PaperState} {oid : Nat} {o : Paper.Order}
    (o' : Paper.Order) (h : Paper.OpenIndexInv st)
    (hlk : Paper.lookupOrder st.orders oid = some o)
    (hcl : o'.status ≠ .OPEN) (hnin : oid ∉ st.open_orders) :
    Paper.OpenIndexInv
      { st with orders := Paper.updateOrder st.orders oid o' } := by
  obtain ⟨hnd, hmem, hmkt⟩ := h
  refine ⟨hnd, ?_, ?_⟩
  · intro j
    by_cases hj : j = oid
    · subst hj
      refine iff_of_false hnin ?_
      rintro ⟨o₂, ho₂, hopn⟩
      rw [lookup_updateOrder_self o' hlk] at ho₂
      cases ho₂
      exact hcl hopn
    · rw [lookup_updateOrder_ne o' hj]
      exact hmem j
  · intro j o₂ ho₂ hty
    by_cases hj : j = oid
    · subst hj
      rw [lookup_updateOrder_self o' hlk] at ho₂
      cases ho₂
      exact hcl
    · rw [lookup_updateOrder_ne o' hj] at ho₂
      exact hmkt j o₂ ho₂ hty

/-- Replacing the order at `oid` with one of the same status and type
preserves the invariant (the queue-advancement write-back). -/
theorem inv_update_same {st : Paper.PaperState} {oid : Nat} {o : Paper.Order}
    (o' : Paper.Order) (h : Paper.OpenIndexInv st)
    (hlk : Paper.lookupOrder st.orders oid = some o)
    (hst : o'.status = o.status) (hty : o'.order_type = o.order_type) :
    Paper.OpenIndexInv
      { st with orders := Paper.updateOrder st.orders oid o' } := by
  obtain ⟨hnd, hmem, hmkt⟩ := h
  refine ⟨hnd, ?_, ?_⟩
  · intro j
    by_cases hj : j = oid
    · subst hj
      rw [hmem, hlk]
      constructor
      · rintro ⟨o₂, ho₂, hopn⟩
        cases ho₂
        exact ⟨o', lookup_updateOrder_self o' hlk, hst.trans hopn⟩
      · rintro ⟨o₂, ho₂, hopn⟩
        rw [lookup_updateOrder_self o' hlk] at ho₂
        cases ho₂
        exact ⟨o, rfl, hst ▸ hopn⟩
    · rw [lookup_updateOrder_ne o' hj]
      exact hmem j
  · intro j o₂ ho₂ hty₂
    by_cases hj : j = oid
    · subst hj
      rw [lookup_updateOrder_self o' hlk] at ho₂
      cases ho₂
      rw [hst]
      exact hmkt _ o hlk (hty ▸ hty₂)
    · rw [lookup_updateOrder_ne o' hj] at ho₂
      exact hmkt j o₂ ho₂ hty₂

theorem inv_init (bal mf tf : ℚ) :
    Paper.OpenIndexInv (Paper.PaperState.init bal mf tf) := by
  refine ⟨List.nodup_nil, ?_, ?_⟩
  · intro j
    simp [Paper.PaperState.init, Paper.lookupOrder]
  · intro j o ho
    simp [Paper.PaperState.init, Paper.lookupOrder] at ho

theorem inv_place {st : Paper.PaperState} (h : Paper.OpenIndexInv st)
    (oid symbol : Nat) (side : Paper.OrderSide) (otype : Paper.OrderType)
    (q p t : ℚ) (hfresh : Paper.lookupOrder st.orders oid = none) :
    Paper.OpenIndexInv (Paper.place_order st oid symbol side otype q p t) := by
  obtain ⟨hnd, hmem, hmkt⟩ := h
  have hnotin : oid ∉ st.open_orders := fun hin => by
    obtain ⟨o, ho, _⟩ := (hmem oid).mp hin
    rw [hfresh] at ho
    cases ho
  have happ : ∀ (o : Paper.Order) (j : Nat), j ≠ oid →
      Paper.lookupOrder (st.orders ++ [(oid, o)]) j =
        Paper.lookupOrder st.orders j := by
    intro o j hj
    rw [lookup_append_singleton]
    cases hl : Paper.lookupOrder st.orders j
    · simp [Option.orElse, Ne.symm hj]
    · simp [Option.orElse]
  have happ₀ : ∀ o : Paper.Order,
      Paper.lookupOrder (st.orders ++ [(oid, o)]) oid = some o := by
    intro o
    rw [lookup_append_singleton, hfresh]
    simp [Option.orElse]
  cases otype with
  | LIMIT =>
    refine ⟨?_, ?_, ?_⟩
    · simp only [Paper.place_order]
      rw [List.nodup_append]
      exact ⟨hnd, List.nodup_singleton oid,
        fun a ha hb => hnotin ((List.mem_singleton.mp hb) ▸ ha)⟩
    · intro j
      simp only [Paper.place_order, List.mem_append, List.mem_singleton]
      by_cases hj : j = oid
      · subst hj
        refine iff_of_true (Or.inr rfl) ⟨_, happ₀ _, rfl⟩
      · rw [happ _ j hj]
        simp only [hj, or_false]
        exact hmem j
    · intro j o ho hty
      by_cases hj : j = oid
      · subst hj
        simp only [Paper.place_order] at ho
        rw [happ₀] at ho
        cases ho
        simp at hty
      · simp only [Paper.place_order] at ho
        rw [happ _ j hj] at ho
        exact hmkt j o ho hty
  | MARKET =>
    refine ⟨hnd, ?_, ?_⟩
    · intro j
      simp only [Paper.place_order]
      by_cases hj : j = oid
      · subst hj
        refine iff_of_false hnotin ?_
        rintro ⟨o, ho, hopn⟩
        rw [happ₀] at ho
        cases ho
        cases hopn
      · rw [happ _ j hj]
        exact hmem j
    · intro j o ho hty
      simp only [Paper.place_order] at ho
      by_cases hj : j = oid
      · subst hj
        rw [happ₀] at ho
        cases ho
        simp
      · rw [happ _ j hj] at ho
        exact hmkt j o ho hty

/-- Finalizing a fill preserves the invariant when the target id is not in the
open-order index. -/
theorem inv_finalize_notmem {st : Paper.PaperState} {oid : Nat}
    {o : Paper.Order} (qty price : ℚ) (is_maker : Bool)
    (h : Paper.OpenIndexInv st)
    (hlk : Paper.lookupOrder st.orders oid = some o)
    (hnin : oid ∉ st.open_orders) :
    Paper.OpenIndexInv (Paper.finalize_fill st oid qty price is_maker) := by
  refine inv_congr (inv_close_notmem
    { o with
      filled_quantity := qty
      average_price := price
      status := .FILLED } h hlk (by simp) hnin) ?_ ?_
  · simp [Paper.finalize_fill, hlk]
  · simp [Paper.finalize_fill, hlk]

theorem inv_market {st : Paper.PaperState} (h : Paper.OpenIndexInv st)
    (oid : Nat) (book : Engine.OrderBookE)
    (htype : ∀ o, Paper.lookupOrder st.orders oid = some o →
      o.order_type = .MARKET) :
    Paper.OpenIndexInv (Paper.process_market_order st oid book) := by
  cases hlk : Paper.lookupOrder st.orders oid with
  | none => simpa [Paper.process_market_order, hlk] using h
  | some o =>
    by_cases hf : o.status = .FILLED
    · simpa [Paper.process_market_order, hlk, hf] using h
    · rw [process_market_order_eq book hlk hf]
      have hno : o.status ≠ .OPEN :=
        h.2.2 oid o hlk (htype o hlk)
      have hnin : oid ∉ st.open_orders := fun hin => by
        obtain ⟨o₂, ho₂, hopn⟩ := (h.2.1 oid).mp hin
        rw [hlk] at ho₂
        cases ho₂
        exact hno hopn
      exact inv_finalize_notmem _ _ _ h hlk hnin

theorem inv_limitStep {st : Paper.PaperState} (trade : Paper.Trade)
    (oid : Nat) (h : Paper.OpenIndexInv st) :
    Paper.OpenIndexInv (Paper.limitStep trade st oid) := by
  cases hlk : Paper.lookupOrder st.orders oid with
  | none => simpa [Paper.limitStep, hlk] using h
  | some o =>
    obtain ⟨oi, osym, oside, otype, oq, opr, oca, ost, ofq, oap, oiq, opv⟩ := o
    have hfill_erase : ∀ (st' : Paper.PaperState) (o' : Paper.Order)
        (q' p' : ℚ),
        Paper.OpenIndexInv st' →
        Paper.lookupOrder st'.orders oid = some o' →
        Paper.OpenIndexInv
          { Paper.finalize_fill st' oid q' p' true with
            open_orders :=
              (Paper.finalize_fill st' oid q' p' true).open_orders.erase oid } := by
      intro st' o' q' p' h' hlk'
      refine inv_congr (inv_close_erase
        { o' with
          filled_quantity := q'
          average_price := p'
          status := .FILLED } h' hlk' (by simp)) ?_ ?_
      · simp [Paper.finalize_fill, hlk']
      · rw [finalize_fill_open_orders]
    rcases oside with _ | _
    · rcases lt_trichotomy trade.p opr with hp | hp | hp
      · simp only [Paper.limitStep, hlk, if_pos hp]
        exact hfill_erase st _ _ _ h hlk
      · have hn1 : ¬ trade.p < opr := by
          rw [hp]
          exact lt_irrefl _
        by_cases hm : trade.m
        · have hinv' := inv_update_same
            ⟨oi, osym, .BUY, otype, oq, opr, oca, ost, ofq, oap, oiq,
              opv + trade.q⟩ h hlk rfl rfl
          have hlk' := lookup_updateOrder_self
            ⟨oi, osym, .BUY, otype, oq, opr, oca, ost, ofq, oap, oiq,
              opv + trade.q⟩ hlk
          by_cases hfill : oq < opv + trade.q
          · simp only [Paper.limitStep, hlk, if_neg hn1, if_pos hp, hm,
              if_pos rfl, reduceIte, if_pos hfill]
            exact hfill_erase _ _ _ _ hinv' hlk'
          · simp only [Paper.limitStep, hlk, if_neg hn1, if_pos hp, hm,
              if_pos rfl, reduceIte, if_neg hfill]
            exact hinv'
        · simp only [Paper.limitStep, hlk, if_neg hn1, if_pos hp, hm,
            Bool.false_eq_true, if_neg, reduceIte]
          exact h
      · have h1 : ¬ trade.p < opr := not_lt.mpr (le_of_lt hp)
        have h2 : ¬ trade.p = opr := ne_of_gt hp
        simp only [Paper.limitStep, hlk, if_neg h1, if_neg h2, reduceIte]
        exact h
    · rcases lt_trichotomy trade.p opr with hp | hp | hp
      · have h1 : ¬ opr < trade.p := not_lt.mpr (le_of_lt hp)
        have h2 : ¬ trade.p = opr := ne_of_lt hp
        simp only [Paper.limitStep, hlk, if_neg h1, if_neg h2, reduceIte]
        exact h
      · have hn1 : ¬ opr < trade.p := by
          rw [hp]
          exact lt_irrefl _
        by_cases hm : trade.m
        · simp only [Paper.limitStep, hlk, if_neg hn1, if_pos hp, hm,
            Bool.not_true, Bool.false_eq_true, if_neg, reduceIte]
          exact h
        · have hmf : trade.m = false := Bool.eq_false_iff.mpr hm
          have hinv' := inv_update_same
            ⟨oi, osym, .SELL, otype, oq, opr, oca, ost, ofq, oap, oiq,
              opv + trade.q⟩ h hlk rfl rfl
          have hlk' := lookup_updateOrder_self
            ⟨oi, osym, .SELL, otype, oq, opr, oca, ost, ofq, oap, oiq,
              opv + trade.q⟩ hlk
          by_cases hfill : oq < opv + trade.q
          · simp only [Paper.limitStep, hlk, if_neg hn1, if_pos hp, hmf,
              Bool.not_false, if_pos rfl, reduceIte, if_pos hfill]
            have hif : (if oid ∈ (Paper.finalize_fill
                { st with orders := (Paper.updateOrder st.orders oid
                    ⟨oi, osym, .SELL, otype, oq, opr, oca, ost, ofq, oap, oiq,
                      opv + trade.q⟩) }
                oid oq opr true).open_orders then
                  (Paper.finalize_fill
                    { st with orders := (Paper.updateOrder st.orders oid
                        ⟨oi, osym, .SELL, otype, oq, opr, oca, ost, ofq, oap,
                          oiq, opv + trade.q⟩) }
                    oid oq opr true).open_orders.erase oid
                else
                  (Paper.finalize_fill
                    { st with orders := (Paper.updateOrder st.orders oid
                        ⟨oi, osym, .SELL, otype, oq, opr, oca, ost, ofq, oap,
                          oiq, opv + trade.q⟩) }
                    oid oq opr true).open_orders) =
                (Paper.finalize_fill
                  { st with orders := (Paper.updateOrder st.orders oid
                      ⟨oi, osym, .SELL, otype, oq, opr, oca, ost, ofq, oap,
                        oiq, opv + trade.q⟩) }
                  oid oq opr true).open_orders.erase oid := by
              by_cases hmem : oid ∈ (Paper.finalize_fill
                  { st with orders := (Paper.updateOrder st.orders oid
                      ⟨oi, osym, .SELL, otype, oq, opr, oca, ost, ofq, oap,
                        oiq, opv + trade.q⟩) }
                  oid oq opr true).open_orders
              · rw [if_pos hmem]
              · rw [if_neg hmem, List.erase_of_not_mem hmem]
            rw [hif]
            exact hfill_erase _ _ _ _ hinv' hlk'
          · simp only [Paper.limitStep, hlk, if_neg hn1, if_pos hp, hmf,
              Bool.not_false, if_pos rfl, reduceIte, if_neg hfill]
            exact hinv'
      · simp only [Paper.limitStep, hlk, if_pos hp]
        exact hfill_erase st _ _ _ h hlk

theorem inv_foldl_limitStep (trade : Paper.Trade) (l : List Nat) :
    ∀ st : Paper.PaperState, Paper.OpenIndexInv st →
      Paper.OpenIndexInv (l.foldl (Paper.limitStep trade) st) := by
  induction l with
  | nil => exact fun st h => h
  | cons a t ih =>
    intro st h
    exact ih _ (inv_limitStep trade a h)

theorem inv_process_limit_orders {st : Paper.PaperState}
    (trades : List Paper.Trade) (h : Paper.OpenIndexInv st) :
    Paper.OpenIndexInv (Paper.process_limit_orders st trades) := by
  induction trades generalizing st with
  | nil => exact h
  | cons tr rest ih =>
    exact ih (inv_foldl_limitStep tr st.open_orders st h)

theorem inv_cancel {st : Paper.PaperState} (oid : Nat)
    (h : Paper.OpenIndexInv st) :
    Paper.OpenIndexInv (Paper.cancel_order st oid).1 := by
  by_cases hin : oid ∈ st.open_orders
  · obtain ⟨o, hlk, _⟩ := (h.2.1 oid).mp hin
    simp only [Paper.cancel_order, if_pos hin, hlk]
    exact inv_close_erase { o with status := .CANCELLED } h hlk (by simp)
  · simpa [Paper.cancel_order, hin] using h

theorem cancelFold_lookup_not_mem (l : List Nat) :
    ∀ (os : List (Nat × Paper.Order)) (j : Nat), j ∉ l →
      Paper.lookupOrder (l.foldl Paper.cancelOne os) j =
        Paper.lookupOrder os j := by
  induction l with
  | nil => intro os j _; rfl
  | cons a t ih =>
    intro os j hj
    have hja : j ≠ a := fun he => hj (he ▸ List.mem_cons_self a t)
    have hjt : j ∉ t := fun ht => hj (List.mem_cons_of_mem a ht)
    rw [List.foldl_cons, ih _ j hjt]
    unfold Paper.cancelOne
    cases hos : Paper.lookupOrder os a
    · rfl
    · exact lookup_updateOrder_ne _ hja

theorem cancelFold_lookup_mem (l : List Nat) :
    ∀ (os : List (Nat × Paper.Order)) (j : Nat), j ∈ l →
      ∀ o', Paper.lookupOrder (l.foldl Paper.cancelOne os) j = some o' →
        o'.status = .CANCELLED := by
  induction l with
  | nil => intro os j hj; cases hj
  | cons a t ih =>
    intro os j hj o' h'
    by_cases hjt : j ∈ t
    · exact ih _ j hjt o' h'
    · have hja : j = a := by
        rcases List.mem_cons.mp hj with he | ht
        · exact he
        · exact absurd ht hjt
      subst hja
      rw [List.foldl_cons, cancelFold_lookup_not_mem t _ j hjt] at h'
      unfold Paper.cancelOne at h'
      cases hos : Paper.lookupOrder os j
      · rw [hos] at h'
        rw [hos] at h'
        exact Option.noConfusion h'
      · rename_i o₀
        rw [hos, lookup_updateOrder_self _ hos] at h'
        cases h'
        rfl

theorem inv_cancelAll {st : Paper.PaperState} (h : Paper.OpenIndexInv st) :
    Paper.OpenIndexInv (Paper.cancel_all_orders st).1 := by
  obtain ⟨hnd, hmem, hmkt⟩ := h
  refine ⟨List.nodup_nil, ?_, ?_⟩
  · intro j
    refine iff_of_false (List.not_mem_nil j) ?_
    rintro ⟨o', ho', hopn⟩
    have ho'' : Paper.lookupOrder
        (st.open_orders.foldl Paper.cancelOne st.orders) j = some o' := ho'
    by_cases hjl : j ∈ st.open_orders
    · have := cancelFold_lookup_mem st.open_orders st.orders j hjl o' ho''
      rw [this] at hopn
      cases hopn
    · rw [cancelFold_lookup_not_mem st.open_orders st.orders j hjl] at ho''
      exact hjl ((hmem j).mpr ⟨o', ho'', hopn⟩)
  · intro j o₂ ho₂ hty
    have ho₂' : Paper.lookupOrder
        (st.open_orders.foldl Paper.cancelOne st.orders) j = some o₂ := ho₂
    by_cases hjl : j ∈ st.open_orders
    · rw [cancelFold_lookup_mem st.open_orders st.orders j hjl o₂ ho₂']
      simp
    · rw [cancelFold_lookup_not_mem st.open_orders st.orders j hjl] at ho₂'
      exact hmkt j o₂ ho₂' hty

theorem inv_reset (st : Paper.PaperState) :
    Paper.OpenIndexInv (Paper.reset st) := by
  refine ⟨List.nodup_nil, ?_, ?_⟩
  · intro j
    simp [Paper.reset, Paper.lookupOrder]
  · intro j o ho
    simp [Paper.reset, Paper.lookupOrder] at ho

/-- Every state reachable with `process_market_order` restricted to
MARKET-type ids satisfies the open-order index invariant. -/
theorem openIndexInv_of_reachable :
    ∀ st : Paper.PaperState, Paper.Reachable st → Paper.OpenIndexInv st := by
  intro st h
  induction h with
  | init bal mf tf => exact inv_init bal mf tf
  | place _ oid symbol side otype q p t hfresh ih =>
    exact inv_place ih oid symbol side otype q p t hfresh
  | market _ oid book htype ih => exact inv_market ih oid book htype
  | limits _ trades ih => exact inv_process_limit_orders trades ih
  | cancel _ oid ih => exact inv_cancel oid ih
  | cancelAll _ ih => exact inv_cancelAll ih
  | doReset _ ih => exact inv_reset _

/-- C7 counterexample: the claim quantifies over any sequence of the public
calls, but `process_market_order` never checks the order type.  Placing a
LIMIT BUY (status OPEN, id in the index) and then calling
`process_market_order` on that id reaches a state where the order is FILLED
yet its id is still in the open-order index, so the index-iff-OPEN invariant
fails. -/
theorem C7_counterexample :
    Paper.ReachableAny (Paper.process_market_order
      (Paper.place_order (Paper.PaperState.init 100000 (2/10000) (4/10000))
        1 0 .BUY .LIMIT 1 100 0)
      1 ⟨[], [(100, 5)], 0, none, 0, none, 0, [], 0⟩) ∧
    1 ∈ (Paper.process_market_order
      (Paper.place_order (Paper.PaperState.init 100000 (2/10000) (4/10000))
        1 0 .BUY .LIMIT 1 100 0)
      1 ⟨[], [(100, 5)], 0, none, 0, none, 0, [], 0⟩).open_orders ∧
    (Paper.lookupOrder (Paper.process_market_order
      (Paper.place_order (Paper.PaperState.init 100000 (2/10000) (4/10000))
        1 0 .BUY .LIMIT 1 100 0)
      1 ⟨[], [(100, 5)], 0, none, 0, none, 0, [], 0⟩).orders 1).map
        Paper.Order.status = some .FILLED := by
  refine ⟨Paper.ReachableAny.market
    (Paper.ReachableAny.place (Paper.ReachableAny.init 100000 (2/10000)
      (4/10000)) 1 0 .BUY .LIMIT 1 100 0 rfl) 1
    ⟨[], [(100, 5)], 0, none, 0, none, 0, [], 0⟩, ?_, ?_⟩ <;>
  · simp only [Paper.process_market_order, Paper.place_order,
      Paper.PaperState.init, Paper.lookupOrder, Paper.finalize_fill,
      Paper.updateOrder, if_pos, if_neg, reduceCtorEq, reduceIte]
    norm_num [Paper.marketWalk, min_def, abs_of_nonneg, Paper.lookupOrder]

/-- C7 amended: in every state reachable when `process_market_order` is
invoked only on MARKET-type order ids (its intended callers), an id is in
the open-order index iff that order's status is OPEN; consequently
`cancel_order` flips exactly the OPEN orders to CANCELLED, removes them from
the index, and is a no-op (returning `false`) otherwise. -/
theorem C7_open_index_amended :
    ∀ st : Paper.PaperState, Paper.Reachable st →
      (∀ oid, oid ∈ st.open_orders ↔
        ∃ o, Paper.lookupOrder st.orders oid = some o ∧ o.status = .OPEN) ∧
      (∀ oid,
        ((∃ o, Paper.lookupOrder st.orders oid = some o ∧ o.status = .OPEN) →
          (Paper.cancel_order st oid).2 = true ∧
          (∃ o', Paper.lookupOrder (Paper.cancel_order st oid).1.orders oid =
            some o' ∧ o'.status = .CANCELLED) ∧
          oid ∉ (Paper.cancel_order st oid).1.open_orders) ∧
        (¬ (∃ o, Paper.lookupOrder st.orders oid = some o ∧
            o.status = .OPEN) →
          Paper.cancel_order st oid = (st, false))) := by
  intro st h
  obtain ⟨hnd, hmem, hmkt⟩ := openIndexInv_of_reachable st h
  refine ⟨hmem, ?_⟩
  intro oid
  constructor
  · intro hex
    have hin : oid ∈ st.open_orders := (hmem oid).mpr hex
    obtain ⟨o, hlk, hopn⟩ := hex
    simp only [Paper.cancel_order, if_pos hin, hlk]
    refine ⟨trivial, ⟨_, lookup_updateOrder_self _ hlk, rfl⟩, ?_⟩
    exact hnd.not_mem_erase
  · intro hnex
    have hnin : oid ∉ st.open_orders := fun hin => hnex ((hmem oid).mp hin)
    simp [Paper.cancel_order, hnin]

/-- C7 amended witness: the invariant instantiated at the state reached by
placing a single LIMIT BUY order. -/
theorem C7_open_index_amended_witness :
    1 ∈ (Paper.place_order (Paper.PaperState.init 100000 (2/10000) (4/10000))
        1 0 .BUY .LIMIT 1 100 0).open_orders ↔
      ∃ o, Paper.lookupOrder
        (Paper.place_order (Paper.PaperState.init 100000 (2/10000) (4/10000))
          1 0 .BUY .LIMIT 1 100 0).orders 1 = some o ∧
        o.status = .OPEN :=
  (C7_open_index_amended _
    (Paper.Reachable.place (Paper.Reachable.init 100000 (2/10000) (4/10000))
      1 0 .BUY .LIMIT 1 100 0 rfl)).1 1

end Microstructure
